import Mathlib

/-!
Verification of the meeting-summarization system.

The frontend (React/TypeScript) sources are embedded directly; filenames are
modelled as lists of characters and byte sizes as natural numbers.  The
backend orchestration layer is not part of the source snapshot, so its state
machine, summarize endpoint, response parser and blob relocator are modelled
from the specification (each such definition carries a doc comment starting
with `Modelled from the spec:`).
-/

/-- Supported audio extensions, from `supportedFormats` in
`frontend/src/components/Upload/AudioUploader.tsx`. -/
def supportedFormats : List (List Char) :=
  [String.toList "mp3", String.toList "wav", String.toList "m4a",
   String.toList "mp4", String.toList "webm", String.toList "flac"]

/-- Maximum upload size in bytes (`maxSize = 25 * 1024 * 1024`) from
`AudioUploader.tsx`. -/
def maxUploadSize : Nat := 25 * 1024 * 1024

/-- JavaScript-style split on a dot: mirrors `file.name.split('.')`.
`split` of the empty string yields one empty segment, and a trailing dot
yields a trailing empty segment, exactly as in JavaScript. -/
def splitOnDot : List Char → List (List Char)
  | [] => [[]]
  | c :: cs =>
    if c = '.' then [] :: splitOnDot cs
    else
      match splitOnDot cs with
      | [] => [[c]]
      | s :: rest => (c :: s) :: rest

/-- The suffix of a filename after its last dot; the whole name when it
contains no dot.  This is the specification-level description of what
`split('.').pop()` computes. -/
def afterLastDot : List Char → List Char
  | [] => []
  | c :: cs =>
    if '.' ∈ cs then afterLastDot cs
    else if c = '.' then cs
    else c :: cs

/-- The extension check from `beforeUpload` in `AudioUploader.tsx`:
`const fileExtension = file.name.split('.').pop()?.toLowerCase();`
rejected when `!fileExtension || !supportedFormats.includes(fileExtension)`
(the empty string is falsy in JavaScript). -/
def formatCheck (name : List Char) : Bool :=
  match (splitOnDot name).getLast? with
  | none => false
  | some ext =>
    let e := ext.map Char.toLower
    if e = [] then false else decide (e ∈ supportedFormats)

/-- The full client-side validation of `beforeUpload` in `AudioUploader.tsx`:
the size check runs first, then the extension check. -/
def beforeUploadAccepts (name : List Char) (size : Nat) : Bool :=
  if size > maxUploadSize then false
  else formatCheck name

/-- A file offered to the uploader: its name and its size in bytes. -/
structure UploadFile where
  name : List Char
  size : Nat
deriving DecidableEq, Repr

/-- Effect of `beforeUpload` on the uploader's `selectedFile` state:
`setSelectedFile` runs only after both validation checks pass, so a
rejected file leaves the selection unchanged. -/
def beforeUploadState (selected : Option UploadFile) (f : UploadFile) :
    Option UploadFile :=
  if beforeUploadAccepts f.name f.size then some f else selected

/-- The claim's notion of a file extension: present exactly when the name
contains a dot, in which case it is the lowercased substring after the last
dot.  Written from the claim's words, to be compared with the code. -/
def claimedExtension (name : List Char) : Option (List Char) :=
  if '.' ∈ name then some ((afterLastDot name).map Char.toLower) else none

/-- The rejection condition as the claim states it: size over the limit, or
the extension absent or not among the supported formats. -/
def claimedRejection (name : List Char) (size : Nat) : Bool :=
  decide (size > maxUploadSize) ||
    match claimedExtension name with
    | none => true
    | some e => decide (e ∉ supportedFormats)

/-- Status strings representable in the frontend, from the union type
`ProcessingStatus` in `frontend/src/types/api.ts`:
`'pending' | 'uploading' | 'transcribing' | 'summarizing' | 'completed' | 'failed'`. -/
inductive FrontendStatus
  | pending
  | uploading
  | transcribing
  | summarizing
  | completed
  | failed
deriving DecidableEq, Repr

/-- The literal string of each member of the frontend status union. -/
def FrontendStatus.statusString : FrontendStatus → String
  | .pending => "pending"
  | .uploading => "uploading"
  | .transcribing => "transcribing"
  | .summarizing => "summarizing"
  | .completed => "completed"
  | .failed => "failed"

/-- All status strings the frontend type admits. -/
def frontendStatusStrings : List String :=
  [FrontendStatus.pending, FrontendStatus.uploading, FrontendStatus.transcribing,
   FrontendStatus.summarizing, FrontendStatus.completed,
   FrontendStatus.failed].map FrontendStatus.statusString

/-- The status set the claim asserts, in the order of the spec. -/
def claimedStatusStrings : List String :=
  ["pending", "uploading", "transcribing", "transcribed", "summarizing",
   "completed", "failed"]

/-- `getStatusText` from `ProcessingStatus.tsx`, as a function of the raw
status string arriving from the server; the switch's default branch returns
the unknown label. -/
def getStatusText (s : String) : String :=
  if s = "pending" then "Đang chờ xử lý"
  else if s = "uploading" then "Đang tải lên"
  else if s = "transcribing" then "Đang chuyển đổi giọng nói"
  else if s = "summarizing" then "Đang tạo biên bản"
  else if s = "completed" then "Hoàn thành"
  else if s = "failed" then "Xử lý thất bại"
  else "Không xác định"

/-- `getStatusColor` from `ProcessingStatus.tsx`, on the raw status string;
the default branch returns the gray color. -/
def getStatusColor (s : String) : String :=
  if s = "pending" then "#faad14"
  else if s = "uploading" then "#1890ff"
  else if s = "transcribing" then "#722ed1"
  else if s = "summarizing" then "#13c2c2"
  else if s = "completed" then "#52c41a"
  else if s = "failed" then "#ff4d4f"
  else "#d9d9d9"

/-- Modelled from the spec: the Task Record status values of §3 (the backend
Task Record implementation is absent from the source snapshot). -/
inductive Status
  | pending
  | uploading
  | transcribing
  | transcribed
  | summarizing
  | completed
  | failed
deriving DecidableEq, Repr

/-- The pipeline stage a failure originates from (§7 error taxonomy). -/
inductive FailStage
  | storage
  | transcriptionStage
  | summarizationStage
deriving DecidableEq, Repr

/-- Modelled from the spec: the failure message written on a failed
transition names the failing stage and carries the cause detail (§4.2 side
effects, §7 propagation policy). -/
def failMessage : FailStage → String → String
  | .storage, d => "Storage error: " ++ d
  | .transcriptionStage, d => "Transcription error: " ++ d
  | .summarizationStage, d => "Summarization error: " ++ d

/-- Modelled from the spec: the Task Record of §3, restricted to the fields
the claims mention. -/
structure TaskRecord where
  status : Status
  progress : Nat
  message : String
  transcription : Option String
  summary : Option String
  persistentPath : Option String
deriving DecidableEq, Repr

/-- A Task Record as created at upload-accept time (state `pending`). -/
def initTask : TaskRecord :=
  { status := .pending, progress := 0, message := "Task created",
    transcription := none, summary := none, persistentPath := none }

/-- Modelled from the spec: the triggers of the §4.2 state-machine table;
payload-carrying events stand for outcomes of the Blob Relocator and the
external AI Gateway. -/
inductive Event
  | beginProcessing
  | relocated (path : String)
  | relocationFailed (detail : String)
  | transcriptionDone (text : String)
  | transcriptionFailed (detail : String)
  | summarizeRequested
  | summaryDone (text : String)
  | summaryFailed (detail : String)
deriving DecidableEq, Repr

/-- Modelled from the spec: the Pipeline Orchestrator state machine of §4.2
(the backend orchestrator implementation is absent from the source
snapshot).  `oneShot` selects the mode in which the `transcribed` pause
point auto-advances (§4.2 design rationale, §9).  Returns `none` when the
event is not enabled in the current state: the registry rejects it without
mutating the record. -/
def step (oneShot : Bool) (e : Event) (r : TaskRecord) : Option TaskRecord :=
  match e with
  | .beginProcessing =>
    if r.status = .pending then
      some { r with status := .uploading, progress := 10,
                    message := "Uploading file" }
    else none
  | .relocated path =>
    if r.status = .uploading then
      some { r with status := .transcribing, progress := 30,
                    message := "Transcribing audio",
                    persistentPath := some path }
    else none
  | .relocationFailed d =>
    if r.status = .uploading then
      some { r with status := .failed, message := failMessage .storage d }
    else none
  | .transcriptionDone t =>
    if r.status = .transcribing then
      if oneShot then
        some { r with status := .summarizing, progress := 70,
                      message := "Summarizing", transcription := some t }
      else
        some { r with status := .transcribed, progress := 70,
                      message := "Transcription ready",
                      transcription := some t }
    else none
  | .transcriptionFailed d =>
    if r.status = .transcribing then
      some { r with status := .failed,
                    message := failMessage .transcriptionStage d }
    else none
  | .summarizeRequested =>
    if r.status = .transcribed then
      some { r with status := .summarizing, progress := 80,
                    message := "Summarizing" }
    else none
  | .summaryDone s =>
    if r.status = .summarizing then
      some { r with status := .completed, progress := 100,
                    message := "Completed", summary := some s }
    else none
  | .summaryFailed d =>
    if r.status = .summarizing then
      some { r with status := .failed,
                    message := failMessage .summarizationStage d }
    else none

/-- Runs a sequence of events through the orchestrator; events not enabled
in the current state leave the record untouched. -/
def run (oneShot : Bool) : List Event → TaskRecord → TaskRecord
  | [], r => r
  | e :: es, r =>
    match step oneShot e r with
    | some r1 => run oneShot es r1
    | none => run oneShot es r

/-- The committed Task Record snapshots a polling client can observe while a
sequence of events runs: the record before processing and the record after
each effective transition (§4.1 atomic snapshot semantics). -/
def runTrace (oneShot : Bool) : List Event → TaskRecord → List TaskRecord
  | [], r => [r]
  | e :: es, r =>
    match step oneShot e r with
    | some r1 => r :: runTrace oneShot es r1
    | none => runTrace oneShot es r

/-- Position of each status in the forward-only order of §4.2; `failed` is
last, being reachable from every non-terminal state. -/
def rank : Status → Nat
  | .pending => 0
  | .uploading => 1
  | .transcribing => 2
  | .transcribed => 3
  | .summarizing => 4
  | .completed => 5
  | .failed => 6

/-- The unique non-failure successor of each status in the §4.2 table, per
mode; terminal states have none. -/
def succStatus (oneShot : Bool) : Status → Option Status
  | .pending => some .uploading
  | .uploading => some .transcribing
  | .transcribing => some (if oneShot then .summarizing else .transcribed)
  | .transcribed => some .summarizing
  | .summarizing => some .completed
  | .completed => none
  | .failed => none

/-- A single observed transition respects the table order: it either fails,
or moves to the unique next status; it always moves strictly forward and
never decreases progress. -/
def stepOK (oneShot : Bool) (a b : TaskRecord) : Prop :=
  (b.status = .failed ∨ succStatus oneShot a.status = some b.status) ∧
    rank a.status < rank b.status ∧ a.progress ≤ b.progress

/-- Progress values a record may carry in each status, per the §4.2 table
(`summarizing` is entered at 70 in one-shot mode and at 80 from the pause
point; `failed` keeps the progress it had). -/
def progressInv (r : TaskRecord) : Prop :=
  match r.status with
  | .pending => r.progress = 0
  | .uploading => r.progress = 10
  | .transcribing => r.progress = 30
  | .transcribed => r.progress = 70
  | .summarizing => r.progress = 70 ∨ r.progress = 80
  | .completed => r.progress = 100
  | .failed => r.progress ≤ 100

/-- The §3 field invariants tying status to result fields, strengthened to
an inductive invariant of the state machine. -/
def recordInv (r : TaskRecord) : Prop :=
  ((r.status = .transcribed ∨ r.status = .summarizing ∨
      r.status = .completed) → r.transcription ≠ none) ∧
    (r.status = .completed → r.summary ≠ none) ∧
    ((r.status = .pending ∨ r.status = .uploading ∨
        r.status = .transcribing ∨ r.status = .transcribed) →
      r.summary = none)

/-- Errors the API surface returns synchronously (§7 taxonomy). -/
inductive ApiError
  | invalidStateTransition
  | notFound
deriving DecidableEq, Repr

/-- Modelled from the spec: the summarize endpoint of §6 triggers the
summarize transition on an existing `transcribed` task and is rejected with
an invalid-state error otherwise (the backend controller is absent from the
source snapshot). -/
def requestSummarize (r : TaskRecord) : Except ApiError TaskRecord :=
  match step false .summarizeRequested r with
  | some r1 => .ok r1
  | none => .error .invalidStateTransition

/-- The registry's view of a summarize request: on rejection the stored
record is returned unchanged alongside the error. -/
def applySummarize (r : TaskRecord) : TaskRecord × Option ApiError :=
  match requestSummarize r with
  | .ok r1 => (r1, none)
  | .error e => (r, some e)

/-- The opening brace character, kept out of string literals. -/
def lbrace : Char := Char.ofNat 123

/-- The closing brace character, kept out of string literals. -/
def rbrace : Char := Char.ofNat 125

/-- The backtick character used by fenced blocks. -/
def btick : Char := Char.ofNat 96

/-- Modelled from the spec: recognizes a well-formed structured payload at
the head of the text — a brace-balanced block opened by the first character
(§4.2: the summarizer's structured result; the backend parser is absent
from the source snapshot).  Returns the shortest balanced block, or `none`
when the head is not a payload. -/
def braceBlock : List Char → Nat → Option (List Char)
  | [], _ => none
  | c :: cs, d =>
    if c = lbrace then (braceBlock cs (d + 1)).map (fun p => c :: p)
    else if c = rbrace then
      if d = 0 then none
      else if d = 1 then some [c]
      else (braceBlock cs (d - 1)).map (fun p => c :: p)
    else if d = 0 then none
    else (braceBlock cs d).map (fun p => c :: p)

/-- Modelled from the spec: searches the whole response text for the first
position carrying a well-formed structured payload, not only the response
start (§4.2 requirement (a)). -/
def findPayload : List Char → Option (Nat × List Char)
  | [] => none
  | c :: cs =>
    match braceBlock (c :: cs) 0 with
    | some p => some (0, p)
    | none => (findPayload cs).map (fun ip => (ip.1 + 1, ip.2))

/-- A well-formed structured payload `p` occurs at position `i` of the
response text. -/
def payloadAt (content : List Char) (i : Nat) (p : List Char) : Prop :=
  braceBlock (content.drop i) 0 = some p

/-- Result of handling one raw summarizer response (§9: a pure parsing
function with a well-defined failure return). -/
inductive SummarizerOutcome
  | update (payload : List Char)
  | failTask (msg : String)
deriving DecidableEq, Repr

/-- The descriptive message used when no structured payload is recoverable. -/
def parseFailureMsg : String :=
  "Could not extract a structured summary payload from the model response"

/-- Modelled from the spec: resolves a raw summarizer response into either
the first recoverable payload or a failure with a descriptive message
(§4.2 requirements (a) and (b)). -/
def handleSummarizerResponse (content : List Char) : SummarizerOutcome :=
  match findPayload content with
  | some ip => .update ip.2
  | none => .failTask parseFailureMsg

/-- Modelled from the spec: the Orchestrator applies the parsed summarizer
response to the Task Record — a valid completed update or a `failed`
transition, never anything else (§4.2 requirement (c)). -/
def applySummarizerResponse (r : TaskRecord) (content : List Char) :
    TaskRecord :=
  match handleSummarizerResponse content with
  | .update p =>
    { r with status := .completed, progress := 100, message := "Completed",
             summary := some (String.mk p) }
  | .failTask m =>
    { r with status := .failed,
             message := failMessage .summarizationStage m }

/-- JavaScript or-else on the failure message from `HomePage.tsx`
(`status.message || 'Xử lý thất bại'`): the empty string is falsy, so it
falls back to the generic label only when the message is empty. -/
def displayedFailureMessage (msg : String) : String :=
  if msg = "" then "Xử lý thất bại" else msg

/-- Two decimal digits of `n` (tens and units), always two characters. -/
def pad2 (n : Nat) : List Char :=
  [Char.ofNat (48 + n / 10 % 10), Char.ofNat (48 + n % 10)]

/-- Four decimal digits of `n`, always four characters. -/
def pad4 (n : Nat) : List Char :=
  [Char.ofNat (48 + n / 1000 % 10), Char.ofNat (48 + n / 100 % 10),
   Char.ofNat (48 + n / 10 % 10), Char.ofNat (48 + n % 10)]

/-- Modelled from the spec: the creation timestamp of the Blob Relocator
naming rule, formatted `YYYYMMDD_HHMMSS` (§4.3,
`backend/PERSISTENT_STORAGE_INFO.md`). -/
def formatTimestamp (y mo d h mi s : Nat) : List Char :=
  pad4 y ++ pad2 mo ++ pad2 d ++ '_' :: (pad2 h ++ pad2 mi ++ pad2 s)

/-- Modelled from the spec: destination name of the Blob Relocator,
`YYYYMMDD_HHMMSS_{task_id}_{original_filename}` (§4.3). -/
def persistentName (ts taskId orig : List Char) : List Char :=
  ts ++ '_' :: (taskId ++ '_' :: orig)

/-- Modelled from the spec: operations of the persistent audio store.  The
system only ever adds relocated files; it exposes no deletion (§4.3 and the
permanent-retention policy of `PERSISTENT_STORAGE_INFO.md`). -/
inductive StoreOp
  | relocate (name : List Char)
deriving DecidableEq, Repr

/-- Applies a sequence of store operations to the set of retained files. -/
def applyStoreOps : List StoreOp → List (List Char) → List (List Char)
  | [], s => s
  | StoreOp.relocate n :: ops, s => applyStoreOps ops (s ++ [n])

/-- The seven client functions exported by `audioAPI` in
`frontend/src/services/api.ts`, one constructor per function. -/
inductive Request
  | processAudioComplete (name : List Char)
  | uploadAudio (name : List Char)
  | getStatus (taskId : String)
  | getTranscription (taskId : String)
  | getSummary (taskId : String)
  | transcribe (name : List Char)
  | summarizeTask (taskId : String)
deriving DecidableEq, Repr

/-- The `HomePage.tsx` state relevant to which requests get issued. -/
structure UIState where
  currentTaskId : Option String
  isProcessing : Bool
  isCreatingSummary : Bool
  hasTranscription : Bool
  hasSummary : Bool
  errorMsg : Option String
deriving DecidableEq, Repr

/-- Initial `HomePage` state: all `useState` initializers. -/
def initUI : UIState :=
  { currentTaskId := none, isProcessing := false, isCreatingSummary := false,
    hasTranscription := false, hasSummary := false, errorMsg := none }

/-- User actions and asynchronous resolutions driving `HomePage.tsx`. -/
inductive UIEvent
  | fileSelect (name : List Char)
  | transcribeResolved (taskId : String)
  | transcribeRejected (msg : String)
  | createSummaryClick
  | summaryResolved
  | summaryRejected (msg : String)
  | pollTick
  | pollCompleted
  | pollFailed (msg : String)
  | resetClick
deriving DecidableEq, Repr

/-- The `HomePage.tsx` event loop: `handleFileSelect` issues only the
transcription-only call; `handleCreateSummary` issues only the summarize
call; the polling effect (active only while `currentTaskId` is set and
`isProcessing` holds) issues the status read, plus the summary read when a
poll reports completion.  Each branch mirrors the corresponding handler. -/
def uiStep (st : UIState) (ev : UIEvent) : UIState × List Request :=
  match ev with
  | .fileSelect name =>
    ({ st with errorMsg := none, hasTranscription := false,
               hasSummary := false, isProcessing := true },
     [Request.transcribe name])
  | .transcribeResolved taskId =>
    ({ st with hasTranscription := true, currentTaskId := some taskId,
               isProcessing := false }, [])
  | .transcribeRejected msg =>
    ({ st with errorMsg := some msg, isProcessing := false }, [])
  | .createSummaryClick =>
    match st.currentTaskId with
    | none => (st, [])
    | some id =>
      ({ st with errorMsg := none, isCreatingSummary := true },
       [Request.summarizeTask id])
  | .summaryResolved =>
    ({ st with hasSummary := true, isCreatingSummary := false }, [])
  | .summaryRejected msg =>
    ({ st with errorMsg := some msg, isCreatingSummary := false }, [])
  | .pollTick =>
    match st.currentTaskId, st.isProcessing with
    | some id, true => (st, [Request.getStatus id])
    | _, _ => (st, [])
  | .pollCompleted =>
    match st.currentTaskId, st.isProcessing with
    | some id, true =>
      ({ st with isProcessing := false, hasSummary := true },
       [Request.getSummary id])
    | _, _ => (st, [])
  | .pollFailed msg =>
    match st.currentTaskId, st.isProcessing with
    | some _, true =>
      ({ st with isProcessing := false,
                 errorMsg := some (displayedFailureMessage msg) }, [])
    | _, _ => (st, [])
  | .resetClick => (initUI, [])

/-- A failed record's message names the failing stage and its cause. -/
def failedMessageInv (r : TaskRecord) : Prop :=
  r.status = .failed → ∃ st d, r.message = failMessage st d

/-- A concrete summarizer response embedding its structured payload inside
a fenced block, built character by character. -/
def demoSummaryResponse : List Char :=
  [btick, btick, btick, 'j', 's', 'o', 'n', ' ', lbrace, 'a', rbrace,
   btick, btick, btick]

theorem splitOnDot_ne_nil (l : List Char) : splitOnDot l ≠ [] := by
  cases l with
  | nil => simp [splitOnDot]
  | cons c cs =>
    simp only [splitOnDot]
    split
    · simp
    · cases splitOnDot cs <;> simp

theorem splitOnDot_of_not_mem (l : List Char) (h : '.' ∉ l) :
    splitOnDot l = [l] := by
  induction l with
  | nil => rfl
  | cons c cs ih =>
    simp only [List.mem_cons, not_or] at h
    simp only [splitOnDot]
    rw [if_neg (fun hc => h.1 hc.symm), ih h.2]

theorem afterLastDot_of_not_mem (l : List Char) (h : '.' ∉ l) :
    afterLastDot l = l := by
  cases l with
  | nil => rfl
  | cons c cs =>
    simp only [List.mem_cons, not_or] at h
    simp only [afterLastDot]
    rw [if_neg h.2, if_neg (fun hc => h.1 hc.symm)]

theorem splitOnDot_singleton_not_mem (l s : List Char)
    (h : splitOnDot l = [s]) : '.' ∉ l := by
  induction l generalizing s with
  | nil => simp
  | cons c cs ih =>
    simp only [splitOnDot] at h
    by_cases hc : c = '.'
    · rw [if_pos hc] at h
      simp only [List.cons.injEq] at h
      exact absurd h.2 (splitOnDot_ne_nil cs)
    · rw [if_neg hc] at h
      cases hsp : splitOnDot cs with
      | nil => exact absurd hsp (splitOnDot_ne_nil cs)
      | cons s0 rest =>
        rw [hsp] at h
        simp only [List.cons.injEq] at h
        simp only [List.mem_cons, not_or]
        refine ⟨fun hd => hc hd.symm, ?_⟩
        exact ih s0 (by rw [hsp, h.2])

theorem splitOnDot_getLast (l : List Char) :
    (splitOnDot l).getLast? = some (afterLastDot l) := by
  induction l with
  | nil => rfl
  | cons c cs ih =>
    simp only [splitOnDot, afterLastDot]
    by_cases hc : c = '.'
    · rw [if_pos hc, if_pos hc]
      cases hsp : splitOnDot cs with
      | nil => exact absurd hsp (splitOnDot_ne_nil cs)
      | cons s0 rest =>
        rw [hsp] at ih
        rw [List.getLast?_cons_cons]
        by_cases hmem : '.' ∈ cs
        · rw [if_pos hmem]
          exact ih
        · rw [if_neg hmem]
          have h2 := splitOnDot_of_not_mem cs hmem
          rw [h2] at hsp
          injection hsp with h3 h4
          subst h3
          subst h4
          rfl
    · rw [if_neg hc, if_neg hc]
      cases hsp : splitOnDot cs with
      | nil => exact absurd hsp (splitOnDot_ne_nil cs)
      | cons s0 rest =>
        rw [hsp] at ih
        show ((c :: s0) :: rest).getLast? =
          some (if '.' ∈ cs then afterLastDot cs else c :: cs)
        cases rest with
        | nil =>
          have hnm : '.' ∉ cs := splitOnDot_singleton_not_mem cs s0 hsp
          rw [if_neg hnm]
          have h2 := splitOnDot_of_not_mem cs hnm
          rw [h2] at hsp
          injection hsp with h3 h4
          subst h3
          rfl
        | cons r rs =>
          have hmem : '.' ∈ cs := by
            by_contra hnm
            rw [splitOnDot_of_not_mem cs hnm] at hsp
            simp at hsp
          rw [if_pos hmem, List.getLast?_cons_cons, ← ih,
            List.getLast?_cons_cons]

/-- The extension check equals membership, in the supported-format list, of
the lowercased segment after the last dot (the whole lowercased name when the
filename has no dot). -/
theorem formatCheck_iff (name : List Char) :
    formatCheck name = true ↔
      (afterLastDot name).map Char.toLower ∈ supportedFormats := by
  simp only [formatCheck, splitOnDot_getLast]
  by_cases he : (afterLastDot name).map Char.toLower = []
  · rw [if_pos he, he]
    simp [supportedFormats]
  · rw [if_neg he]
    simp

/-- C4 counterexample: the claim asserts rejection exactly when the size
exceeds 25 MB or the extension is not a supported one, yet a dotless file
named exactly `mp3` — which has no extension — passes validation: the
validator compares the whole name, as `split('.').pop()` returns it. -/
theorem upload_validation_claim_fails_on_dotless_name :
    beforeUploadAccepts (String.toList "mp3") 10 = true ∧
    claimedRejection (String.toList "mp3") 10 = true := by
  decide

/-- C4 (amended): an upload is accepted exactly when its size is within
25 MB and the lowercased segment after the last dot of its name — the whole
lowercased name when the name has no dot — is a supported format; a file
failing validation is never selected, so no request and no Task Record can
arise from it. -/
theorem upload_validation_characterization (name : List Char) (size : Nat) :
    (beforeUploadAccepts name size = true ↔
      (size ≤ maxUploadSize ∧
        (afterLastDot name).map Char.toLower ∈ supportedFormats)) ∧
    (∀ selected : Option UploadFile,
      beforeUploadAccepts name size = false →
        beforeUploadState selected ⟨name, size⟩ = selected) := by
  constructor
  · simp only [beforeUploadAccepts]
    by_cases h : size > maxUploadSize
    · rw [if_pos h]
      constructor
      · intro hco
        simp at hco
      · intro hco
        exact absurd hco.1 (not_le.mpr h)
    · rw [if_neg h, formatCheck_iff]
      simp [not_lt.mp h]
  · intro sel hrej
    simp [beforeUploadState, hrej]

/-- Witness for the amended C4 theorem at concrete files. -/
theorem upload_validation_characterization_witness :
    beforeUploadAccepts (String.toList "meeting.mp3") 100 = true ∧
    beforeUploadState none ⟨String.toList "notes.pdf", 100⟩ = none := by
  constructor
  · exact ((upload_validation_characterization
      (String.toList "meeting.mp3") 100).1).mpr (by decide)
  · exact (upload_validation_characterization
      (String.toList "notes.pdf") 100).2 none (by decide)

/-- C10: the format check holds exactly of the lowercased segment after the
last dot of the filename (so `MEETING.MP3` is accepted case-insensitively);
for a dotless filename the whole lowercased name is compared, so a file
named exactly `mp3` passes while dotless names outside the format list are
rejected. -/
theorem extension_check_last_dot_segment :
    (∀ name : List Char,
      (formatCheck name = true ↔
        (afterLastDot name).map Char.toLower ∈ supportedFormats)) ∧
    formatCheck (String.toList "MEETING.MP3") = true ∧
    (∀ name : List Char, '.' ∉ name →
      (formatCheck name = true ↔ name.map Char.toLower ∈ supportedFormats)) ∧
    formatCheck (String.toList "mp3") = true := by
  refine ⟨formatCheck_iff, by decide, ?_, by decide⟩
  intro name h
  rw [formatCheck_iff, afterLastDot_of_not_mem name h]

/-- Witness for the C10 theorem: a dotless uppercase format name passes and
an ordinary dotless name fails. -/
theorem extension_check_last_dot_segment_witness :
    formatCheck (String.toList "WAV") = true ∧
    formatCheck (String.toList "audio") = false := by
  constructor
  · exact ((extension_check_last_dot_segment.2.2.1
      (String.toList "WAV") (by decide))).mpr (by decide)
  · decide

/-- C5 counterexample: the frontend status union of `types/api.ts` does not
contain `transcribed`, so the claimed seven-value status set differs from
the set representable by polling clients. -/
theorem status_union_counterexample :
    "transcribed" ∈ claimedStatusStrings ∧
    "transcribed" ∉ frontendStatusStrings ∧
    frontendStatusStrings ≠ claimedStatusStrings := by
  decide

/-- C5 (amended): the status values representable in the frontend are
exactly the claimed set minus `transcribed`; a polled `transcribed` value
falls into the default branches of the status rendering. -/
theorem status_union_amended :
    frontendStatusStrings = claimedStatusStrings.erase "transcribed" ∧
    getStatusText "transcribed" = "Không xác định" ∧
    getStatusColor "transcribed" = "#d9d9d9" := by
  decide

theorem step_stepOK (oneShot : Bool) (e : Event) (r r1 : TaskRecord)
    (hinv : progressInv r) (h : step oneShot e r = some r1) :
    stepOK oneShot r r1 ∧ progressInv r1 := by
  cases e <;> simp only [step] at h <;> (try split at h) <;> (try split at h) <;>
    cases h <;> simp_all [stepOK, succStatus, rank, progressInv] <;> omega

theorem runTrace_head (oneShot : Bool) (evs : List Event) (r : TaskRecord) :
    (runTrace oneShot evs r).head? = some r := by
  induction evs generalizing r with
  | nil => rfl
  | cons e es ih =>
    simp only [runTrace]
    cases hstep : step oneShot e r with
    | none => exact ih r
    | some r1 => rfl

theorem runTrace_chain (oneShot : Bool) (evs : List Event) (r : TaskRecord)
    (hinv : progressInv r) :
    List.Chain' (stepOK oneShot) (runTrace oneShot evs r) := by
  induction evs generalizing r with
  | nil => exact List.chain'_singleton r
  | cons e es ih =>
    simp only [runTrace]
    cases hstep : step oneShot e r with
    | none => exact ih r hinv
    | some r1 =>
      have hok := step_stepOK oneShot e r r1 hinv hstep
      rw [List.chain'_cons']
      refine ⟨?_, ih r1 hok.2⟩
      intro y hy
      rw [runTrace_head] at hy
      simp only [Option.mem_def, Option.some.injEq] at hy
      rw [← hy]
      exact hok.1

/-- C1: along every run of the modelled pipeline from a freshly created
task, consecutive observed records follow the fixed table order — each
effective transition either fails the task or moves to the unique next
status of its mode, never skipping — the status rank strictly increases, so
no transition fires twice (statuses are pairwise distinct along the run),
and the progress field never decreases. -/
theorem pipeline_transition_discipline (oneShot : Bool) (evs : List Event) :
    List.Chain' (stepOK oneShot) (runTrace oneShot evs initTask) ∧
    List.Pairwise (fun a b => rank a.status < rank b.status)
      (runTrace oneShot evs initTask) ∧
    List.Chain' (fun a b => a.progress ≤ b.progress)
      (runTrace oneShot evs initTask) := by
  have hch := runTrace_chain oneShot evs initTask rfl
  refine ⟨hch, ?_, ?_⟩
  · haveI : IsTrans TaskRecord (fun a b => rank a.status < rank b.status) :=
      ⟨fun a b c hab hbc => lt_trans hab hbc⟩
    exact List.chain'_iff_pairwise.mp (hch.imp (fun a b hab => hab.2.1))
  · exact hch.imp (fun a b hab => hab.2.2)

theorem step_recordInv (oneShot : Bool) (e : Event) (r r1 : TaskRecord)
    (hinv : recordInv r) (h : step oneShot e r = some r1) :
    recordInv r1 := by
  cases e <;> simp only [step] at h <;> (try split at h) <;> (try split at h) <;>
    cases h <;> simp_all [recordInv]

theorem run_recordInv (oneShot : Bool) (evs : List Event) (r : TaskRecord)
    (hinv : recordInv r) : recordInv (run oneShot evs r) := by
  induction evs generalizing r with
  | nil => exact hinv
  | cons e es ih =>
    simp only [run]
    cases hstep : step oneShot e r with
    | none => exact ih r hinv
    | some r1 => exact ih r1 (step_recordInv oneShot e r r1 hinv hstep)

/-- C2: every observable Task Record satisfies the status-field
implications: a completed record carries both a transcription and a
summary, and a transcribed record carries a transcription but no summary.
Observable records are exactly the committed snapshots produced by runs of
the state machine, which is what a (possibly concurrent) status read
returns under the registry's atomic snapshot semantics. -/
theorem status_result_field_invariant (oneShot : Bool) (evs : List Event) :
    ((run oneShot evs initTask).status = .completed →
      (run oneShot evs initTask).transcription ≠ none ∧
        (run oneShot evs initTask).summary ≠ none) ∧
    ((run oneShot evs initTask).status = .transcribed →
      (run oneShot evs initTask).transcription ≠ none ∧
        (run oneShot evs initTask).summary = none) := by
  have h := run_recordInv oneShot evs initTask
    (by simp [recordInv, initTask])
  exact ⟨fun hc => ⟨h.1 (Or.inr (Or.inr hc)), h.2.1 hc⟩,
         fun ht => ⟨h.1 (Or.inl ht),
           h.2.2 (Or.inr (Or.inr (Or.inr ht)))⟩⟩

/-- Witness for the C2 theorem on a concrete two-phase run that stops at
the transcribed pause point. -/
theorem status_result_field_invariant_witness :
    (run false [Event.beginProcessing, Event.relocated "p",
        Event.transcriptionDone "hello"] initTask).transcription ≠ none ∧
    (run false [Event.beginProcessing, Event.relocated "p",
        Event.transcriptionDone "hello"] initTask).summary = none := by
  exact (status_result_field_invariant false
    [Event.beginProcessing, Event.relocated "p",
     Event.transcriptionDone "hello"]).2 (by decide)

/-- C3: a summarize request on any task whose status is not transcribed is
rejected with the invalid-state error and returns the stored record
unchanged; and after a first summarize flow succeeds — driving a
transcribed task through summarizing to completed — a second summarize
request on that task is rejected the same way. -/
theorem summarize_rejected_off_transcribed :
    (∀ r : TaskRecord, r.status ≠ .transcribed →
      applySummarize r = (r, some ApiError.invalidStateTransition)) ∧
    (∀ (r : TaskRecord) (s : String), r.status = .transcribed →
      (run false [Event.summarizeRequested, Event.summaryDone s] r).status
          = .completed ∧
        applySummarize
            (run false [Event.summarizeRequested, Event.summaryDone s] r) =
          (run false [Event.summarizeRequested, Event.summaryDone s] r,
            some ApiError.invalidStateTransition)) := by
  constructor
  · intro r hr
    simp [applySummarize, requestSummarize, step, hr]
  · intro r s hr
    simp [run, step, hr, applySummarize, requestSummarize]

/-- Witness for the C3 theorem: a fresh pending task is rejected, and a
concrete transcribed task reaches completed through the summarize flow. -/
theorem summarize_rejected_off_transcribed_witness :
    applySummarize initTask =
      (initTask, some ApiError.invalidStateTransition) ∧
    (run false [Event.summarizeRequested, Event.summaryDone "s"]
        { initTask with status := Status.transcribed }).status =
      .completed := by
  constructor
  · exact summarize_rejected_off_transcribed.1 initTask (by decide)
  · exact (summarize_rejected_off_transcribed.2
      { initTask with status := Status.transcribed } "s" rfl).1

theorem failMessage_ne_empty (st : FailStage) (d : String) :
    failMessage st d ≠ "" := by
  cases st <;>
    · intro h
      have h2 := congrArg String.length h
      simp [failMessage, String.length_append] at h2
      exact absurd h2.1 (by decide)

theorem step_failedMessage (oneShot : Bool) (e : Event) (r r1 : TaskRecord)
    (h : step oneShot e r = some r1) : failedMessageInv r1 := by
  cases e <;> simp only [step] at h <;> (try split at h) <;> (try split at h) <;>
    cases h <;> intro hf <;> first
      | exact ⟨FailStage.storage, _, rfl⟩
      | exact ⟨FailStage.transcriptionStage, _, rfl⟩
      | exact ⟨FailStage.summarizationStage, _, rfl⟩
      | (simp at hf)

theorem run_failedMessage (oneShot : Bool) (evs : List Event)
    (r : TaskRecord) (hr : failedMessageInv r) :
    failedMessageInv (run oneShot evs r) := by
  induction evs generalizing r with
  | nil => exact hr
  | cons e es ih =>
    simp only [run]
    cases hstep : step oneShot e r with
    | none => exact ih r hr
    | some r1 => exact ih r1 (step_failedMessage oneShot e r r1 hstep)

/-- C8: every run that fails leaves a non-empty message naming the failing
stage and its cause, and the polling client's failed-status branch displays
that exact message — the generic fallback label is reached only on an empty
message, which no failed record carries. -/
theorem failed_task_message_specific (oneShot : Bool) (evs : List Event)
    (h : (run oneShot evs initTask).status = .failed) :
    (run oneShot evs initTask).message ≠ "" ∧
    (∃ st d, (run oneShot evs initTask).message = failMessage st d) ∧
    displayedFailureMessage (run oneShot evs initTask).message =
      (run oneShot evs initTask).message := by
  obtain ⟨st, d, hm⟩ := run_failedMessage oneShot evs initTask
    (fun hf => absurd hf (by decide)) h
  rw [hm]
  exact ⟨failMessage_ne_empty st d, ⟨st, d, rfl⟩,
    if_neg (failMessage_ne_empty st d)⟩

/-- Witness for the C8 theorem on a concrete run failing at relocation. -/
theorem failed_task_message_specific_witness :
    (run true [Event.beginProcessing, Event.relocationFailed "disk full"]
        initTask).message ≠ "" := by
  exact (failed_task_message_specific true
    [Event.beginProcessing, Event.relocationFailed "disk full"]
    (by decide)).1

theorem findPayload_some (content : List Char) :
    ∀ (i : Nat) (p : List Char), findPayload content = some (i, p) →
      payloadAt content i p ∧ ∀ j q, payloadAt content j q → i ≤ j := by
  induction content with
  | nil =>
    intro i p h
    simp [findPayload] at h
  | cons c cs ih =>
    intro i p h
    simp only [findPayload] at h
    cases hb : braceBlock (c :: cs) 0 with
    | some p0 =>
      rw [hb] at h
      simp only [Option.some.injEq, Prod.mk.injEq] at h
      obtain ⟨hi, hp⟩ := h
      subst hi
      subst hp
      refine ⟨?_, fun j q _ => Nat.zero_le j⟩
      simpa [payloadAt] using hb
    | none =>
      rw [hb] at h
      cases hf : findPayload cs with
      | none =>
        rw [hf] at h
        simp at h
      | some ip =>
        rw [hf] at h
        simp only [Option.map_some', Option.some.injEq, Prod.mk.injEq] at h
        obtain ⟨hi, hp⟩ := h
        obtain ⟨hP, hmin⟩ := ih ip.1 ip.2 (by rw [hf])
        constructor
        · rw [← hi, ← hp]
          simpa [payloadAt, List.drop_succ_cons] using hP
        · intro j q hq
          cases j with
          | zero =>
            exfalso
            rw [payloadAt, List.drop_zero] at hq
            rw [hq] at hb
            cases hb
          | succ j2 =>
            rw [payloadAt, List.drop_succ_cons] at hq
            rw [← hi]
            exact Nat.succ_le_succ (hmin j2 q hq)

theorem findPayload_none (content : List Char) (h : findPayload content = none) :
    ∀ j q, ¬ payloadAt content j q := by
  induction content with
  | nil =>
    intro j q hq
    simp [payloadAt, braceBlock] at hq
  | cons c cs ih =>
    simp only [findPayload] at h
    cases hb : braceBlock (c :: cs) 0 with
    | some p0 =>
      rw [hb] at h
      simp at h
    | none =>
      rw [hb] at h
      cases hf : findPayload cs with
      | some ip =>
        rw [hf] at h
        simp at h
      | none =>
        intro j q hq
        cases j with
        | zero =>
          rw [payloadAt, List.drop_zero] at hq
          rw [hq] at hb
          cases hb
        | succ j2 =>
          rw [payloadAt, List.drop_succ_cons] at hq
          exact ih hf j2 q hq

/-- C6: payload extraction finds the first well-formed structured payload
occurring anywhere in the raw response (its position is minimal among all
payload positions, fenced or not); when no payload is recoverable anywhere,
the response resolves to a failure with the fixed descriptive message and
the task transitions to failed; and on every input whatsoever the result is
either a valid completed update carrying a summary or a failed transition
with a non-empty message — never anything else. -/
theorem summarizer_response_resolution :
    (∀ (content : List Char) (i : Nat) (p : List Char),
      findPayload content = some (i, p) →
        payloadAt content i p ∧ ∀ j q, payloadAt content j q → i ≤ j) ∧
    (∀ content : List Char, findPayload content = none →
      (∀ j q, ¬ payloadAt content j q) ∧
        handleSummarizerResponse content =
          SummarizerOutcome.failTask parseFailureMsg ∧
        parseFailureMsg ≠ "" ∧
        ∀ r : TaskRecord,
          (applySummarizerResponse r content).status = .failed ∧
            (applySummarizerResponse r content).message ≠ "") ∧
    (∀ (r : TaskRecord) (content : List Char),
      ((applySummarizerResponse r content).status = .completed ∧
        (applySummarizerResponse r content).summary ≠ none) ∨
      ((applySummarizerResponse r content).status = .failed ∧
        (applySummarizerResponse r content).message ≠ "")) := by
  refine ⟨findPayload_some, ?_, ?_⟩
  · intro content h
    refine ⟨findPayload_none content h, ?_, by decide, ?_⟩
    · simp [handleSummarizerResponse, h]
    · intro r
      simp only [applySummarizerResponse, handleSummarizerResponse, h]
      exact ⟨trivial, failMessage_ne_empty .summarizationStage parseFailureMsg⟩
  · intro r content
    cases hfp : findPayload content with
    | some ip =>
      left
      simp [applySummarizerResponse, handleSummarizerResponse, hfp]
    | none =>
      right
      simp only [applySummarizerResponse, handleSummarizerResponse, hfp]
      exact ⟨trivial, failMessage_ne_empty .summarizationStage parseFailureMsg⟩

/-- Witness for the C6 theorem: the fenced demo response yields its embedded
payload at position 8, minimal among payload positions. -/
theorem summarizer_response_resolution_witness :
    payloadAt demoSummaryResponse 8 [lbrace, 'a', rbrace] ∧
    (∀ j q, payloadAt demoSummaryResponse j q → 8 ≤ j) := by
  exact summarizer_response_resolution.1 demoSummaryResponse 8
    [lbrace, 'a', rbrace] (by decide)

theorem append_underscore_inj (a : List Char) :
    ∀ (b x y : List Char), '_' ∉ a → '_' ∉ b →
      a ++ '_' :: x = b ++ '_' :: y → a = b ∧ x = y := by
  induction a with
  | nil =>
    intro b x y _ hb h
    cases b with
    | nil =>
      simp only [List.nil_append, List.cons.injEq] at h
      exact ⟨rfl, h.2⟩
    | cons c bs =>
      simp only [List.nil_append, List.cons_append, List.cons.injEq] at h
      exact absurd (h.1 ▸ List.mem_cons_self c bs) hb
  | cons c as ih =>
    intro b x y ha hb h
    cases b with
    | nil =>
      simp only [List.cons_append, List.nil_append, List.cons.injEq] at h
      exact absurd (h.1 ▸ List.mem_cons_self c as) ha
    | cons c2 bs =>
      simp only [List.cons_append, List.cons.injEq] at h
      simp only [List.mem_cons, not_or] at ha hb
      obtain ⟨heq, hx⟩ := ih bs x y ha.2 hb.2 h.2
      exact ⟨by rw [h.1, heq], hx⟩

/-- C7: the relocated file's name is the underscore-joined concatenation of
the fixed-width 15-character creation timestamp, the task id, and the
original filename, so two tasks with distinct (underscore-free) ids never
collide on the destination name regardless of timestamps or filenames; and
the store only ever accumulates files — a name once present survives every
subsequent sequence of store operations, there being no deletion. -/
theorem persistent_name_unique_and_retained :
    (∀ y mo d h mi s : Nat, (formatTimestamp y mo d h mi s).length = 15) ∧
    (∀ ts1 ts2 id1 id2 o1 o2 : List Char,
      ts1.length = ts2.length → '_' ∉ id1 → '_' ∉ id2 → id1 ≠ id2 →
        persistentName ts1 id1 o1 ≠ persistentName ts2 id2 o2) ∧
    (∀ (ops : List StoreOp) (store : List (List Char)) (n : List Char),
      n ∈ store → n ∈ applyStoreOps ops store) := by
  refine ⟨?_, ?_, ?_⟩
  · intro y mo d h mi s
    simp [formatTimestamp, pad4, pad2]
  · intro ts1 ts2 id1 id2 o1 o2 hlen h1 h2 hne heq
    simp only [persistentName] at heq
    obtain ⟨hts, htail⟩ := List.append_inj heq hlen
    simp only [List.cons.injEq, true_and] at htail
    exact hne (append_underscore_inj id1 id2 o1 o2 h1 h2 htail).1
  · intro ops
    induction ops with
    | nil => intro store n hn; exact hn
    | cons op rest ih =>
      intro store n hn
      cases op with
      | relocate m =>
        exact ih (store ++ [m]) n (List.mem_append_left [m] hn)

/-- Witness for the C7 theorem: concrete distinct task ids yield distinct
destination names under equal timestamps, and a retained file survives a
later relocation. -/
theorem persistent_name_unique_and_retained_witness :
    persistentName (formatTimestamp 2025 9 3 10 44 25) (String.toList "abc")
        (String.toList "a.mp3") ≠
      persistentName (formatTimestamp 2025 9 3 10 44 25)
        (String.toList "abd") (String.toList "a.mp3") ∧
    String.toList "f" ∈
      applyStoreOps [StoreOp.relocate (String.toList "g")]
        [String.toList "f"] := by
  constructor
  · exact persistent_name_unique_and_retained.2.1 _ _ _ _ _ _ rfl
      (by decide) (by decide) (by decide)
  · exact persistent_name_unique_and_retained.2.2
      [StoreOp.relocate (String.toList "g")] [String.toList "f"]
      (String.toList "f") (by decide)

/-- C9: no user-interface code path issues the one-shot client calls — no
event in any state emits `processAudioComplete` or `uploadAudio`; selecting
a file emits exactly the transcription-only request; and a summarize
request is emitted only by the explicit create-summary click, on the
currently stored task id. -/
theorem ui_issues_only_twophase_requests :
    (∀ (st : UIState) (ev : UIEvent) (req : Request),
      req ∈ (uiStep st ev).2 →
        (∀ name, req ≠ Request.processAudioComplete name) ∧
        (∀ name, req ≠ Request.uploadAudio name)) ∧
    (∀ (st : UIState) (name : List Char),
      (uiStep st (UIEvent.fileSelect name)).2 = [Request.transcribe name]) ∧
    (∀ (st : UIState) (ev : UIEvent) (id : String),
      Request.summarizeTask id ∈ (uiStep st ev).2 →
        ev = UIEvent.createSummaryClick ∧ st.currentTaskId = some id) := by
  refine ⟨?_, fun st name => rfl, ?_⟩
  · intro st ev req hreq
    obtain ⟨tid, proc, cre, ht, hs, err⟩ := st
    cases ev <;> cases tid <;> cases proc <;> simp_all [uiStep]
  · intro st ev id hmem
    obtain ⟨tid, proc, cre, ht, hs, err⟩ := st
    cases ev <;> cases tid <;> cases proc <;> simp_all [uiStep]

/-- Witness for the C9 theorem: in the initial state a file selection emits
only the transcribe request, and the summarize request emitted by a click
carries the stored task id. -/
theorem ui_issues_only_twophase_requests_witness :
    (uiStep initUI (UIEvent.fileSelect (String.toList "a.mp3"))).2 =
      [Request.transcribe (String.toList "a.mp3")] ∧
    ({ initUI with currentTaskId := some "t1" } : UIState).currentTaskId =
      some "t1" := by
  constructor
  · exact ui_issues_only_twophase_requests.2.1 initUI (String.toList "a.mp3")
  · exact (ui_issues_only_twophase_requests.2.2
      { initUI with currentTaskId := some "t1" } UIEvent.createSummaryClick
      "t1" (by decide)).2
